import Mathlib

/-!
Verification of `scripts/package_skill.py`.

The program is embedded shallowly:

* Python strings are `List Char`; `str.startswith`, `str.split(sep, maxsplit)`
  and substring membership are modelled character-exactly.
* Values produced by the external YAML parser (`yaml.safe_load`) are modelled
  by the inductive `PyVal`, together with Python truthiness, the polymorphic
  `in` operator and subscript lookup (`metadata["name"]`), each of which can
  raise.  The parser itself is an external collaborator of the program, so
  the functions are parameterised over it (`ParseFn`); concrete instances
  below record `yaml.safe_load`'s documented behaviour on specific inputs.
* The filesystem is a `World`: a finite set of regular files (with contents)
  and a finite set of directories, paths being component lists.  `mkdir`,
  `ZipFile(..., "w")`, `Path.exists`, `Path.is_dir`, `read_text` and
  `rglob("*")` act on it; Python exceptions become the `PyErr` error type of
  `Except`, threaded with the mutated world where the source mutates state.
-/

set_option autoImplicit false

namespace PackageSkill

/-- Python strings, as lists of characters. -/
abbrev Str := List Char

/-- Filesystem paths, as lists of components (`pathlib` parts). -/
abbrev FsPath := List Str

/-- Python exceptions that the program can raise or catch. -/
inductive PyErr where
  | typeError
  | keyError
  | indexError
  | fileNotFound
  | isADirectoryError
  | fileExistsError
  | yamlError
  | decodeError
  deriving DecidableEq, Repr

/-- Python `s.startswith(pre)`: the first `pre.length` characters of `s` equal `pre`. -/
def pyStartsWith (pre s : Str) : Bool :=
  s.take pre.length == pre

/-- Leftmost occurrence of `sep` in `s`: `some (before, after)` splits `s` at
the first position where `sep` occurs, dropping the separator. -/
def findSplit (sep : Str) : Str → Option (Str × Str)
  | [] => none
  | c :: rest =>
    if pyStartsWith sep (c :: rest) then
      some ([], (c :: rest).drop sep.length)
    else
      match findSplit sep rest with
      | some (pre, post) => some (c :: pre, post)
      | none => none

/-- Python `s.split(sep, maxsplit)` for a non-empty separator: split at the leftmost
occurrence, at most `maxsplit` times, scanning left to right without overlap. -/
def pySplit (sep : Str) : Nat → Str → List Str
  | 0, s => [s]
  | Nat.succ k, s =>
    match findSplit sep s with
    | none => [s]
    | some (pre, post) => pre :: pySplit sep k post

/-- Python `needle in hay` on strings: substring containment. -/
def isSubstr (needle hay : Str) : Bool :=
  (List.range (hay.length + 1)).any (fun i => pyStartsWith needle (hay.drop i))

/-- Values returned by `yaml.safe_load`: `None`, integers, strings, sequences
and mappings (a YAML mapping becomes a Python `dict`, here an
association list with the keys that occur in document order). -/
inductive PyVal where
  | vnone
  | vint (n : Int)
  | vstr (s : Str)
  | vlist (xs : List PyVal)
  | vdict (kvs : List (Str × PyVal))

/-- Python truthiness (`bool(v)`): `None`, `0` and empty containers are falsy. -/
def PyVal.truthy : PyVal → Bool
  | .vnone => false
  | .vint n => n != 0
  | .vstr s => !s.isEmpty
  | .vlist xs => !xs.isEmpty
  | .vdict kvs => !kvs.isEmpty

/-- Python equality of a value against a string literal (used by `in` on lists). -/
def eqVStr (v : PyVal) (k : Str) : Bool :=
  match v with
  | .vstr s => s == k
  | _ => false

/-- Python `key in v` for a string `key`: key lookup on dicts, substring test
on strings, element test on lists; `TypeError` on non-iterable scalars. -/
def pyIn (key : Str) : PyVal → Except PyErr Bool
  | .vnone => .error .typeError
  | .vint _ => .error .typeError
  | .vstr s => .ok (isSubstr key s)
  | .vlist xs => .ok (xs.any (fun x => eqVStr x key))
  | .vdict kvs => .ok (kvs.any (fun kv => kv.1 == key))

/-- Python `v[key]` for a string `key`: dict lookup (`KeyError` when absent),
`TypeError` on every non-dict value. -/
def PyVal.getItem : PyVal → Str → Except PyErr PyVal
  | .vdict kvs, key =>
    match kvs.find? (fun kv => kv.1 == key) with
    | some kv => .ok kv.2
    | none => .error .keyError
  | _, _ => .error .typeError

/-- Whether a value is a Python mapping. -/
def PyVal.isDict : PyVal → Bool
  | .vdict _ => true
  | _ => false

/-- The string conversion the f-string applies to the name value when
building the output filename.  It is exact for the shapes a `name:` field
takes in this development (strings, integers, `None`); for sequence or
mapping values Python would render the nested structure, which no result
below depends on, so a short tag stands in. -/
def pyToStr : PyVal → Str
  | .vnone => ("None").data
  | .vint n => (toString n).data
  | .vstr s => s
  | .vlist _ => ("list").data
  | .vdict _ => ("dict").data

/-- The external YAML parser interface: a block of text either parses to a
value or raises `yaml.YAMLError`. -/
abbrev ParseFn := Str → Except Unit PyVal

/-- Contents stored at a path: either text or a zip archive with its entries. -/
inductive FileData where
  | text (s : Str)
  | archive (entries : List (FsPath × FileData))

/-- A filesystem state: regular files with contents, and directories. -/
structure World where
  files : List (FsPath × FileData)
  dirs : List FsPath

/-- Content of the regular file at `p`, if any. -/
def World.readFile (w : World) (p : FsPath) : Option FileData :=
  (w.files.find? (fun f => f.1 == p)).map (fun f => f.2)

/-- Model of `p.is_file()`. -/
def World.isFile (w : World) (p : FsPath) : Bool :=
  w.files.any (fun f => f.1 == p)

/-- Model of `p.is_dir()`. -/
def World.isDir (w : World) (p : FsPath) : Bool :=
  w.dirs.any (fun q => q == p)

/-- Model of `p.exists()`: a regular file or a directory is present at `p`. -/
def World.pathExists (w : World) (p : FsPath) : Bool :=
  w.isFile p || w.isDir p

/-- Model of `p.read_text(...)`: the text of the regular file at `p`;
raises `IsADirectoryError` on a directory, `FileNotFoundError` when absent,
`UnicodeDecodeError` when the bytes at `p` are not text. -/
def World.read_text (w : World) (p : FsPath) : Except PyErr Str :=
  match w.readFile p with
  | some (.text s) => .ok s
  | some (.archive _) => .error .decodeError
  | none => .error (if w.isDir p then .isADirectoryError else .fileNotFound)

/-- Create or truncate-and-rewrite the regular file at `p`. -/
def World.setFile (w : World) (p : FsPath) (d : FileData) : World :=
  { files := (p, d) :: w.files.filter (fun f => !(f.1 == p)), dirs := w.dirs }

/-- All prefixes of a path: the path itself and its ancestors, down to the root. -/
def pathTakes (p : FsPath) : List FsPath :=
  (List.range (p.length + 1)).map (fun i => p.take i)

/-- Model of `p.mkdir(parents=True, exist_ok=True)`: raises when a regular file sits at
`p` or at an ancestor of `p`; otherwise records `p` and all its ancestors as
directories (directories that already exist are silently kept). -/
def World.mkdirParents (w : World) (p : FsPath) : Except PyErr World :=
  if (pathTakes p).any (fun q => w.isFile q) then .error .fileExistsError
  else .ok { files := w.files, dirs := w.dirs ++ pathTakes p }

/-- Whether `p` is strictly below `base` in the tree. -/
def strictlyUnder (base p : FsPath) : Bool :=
  decide (base.length < p.length) && (p.take base.length == base)

/-- The regular files below `base`: `base.rglob("*")` filtered by `is_file()`. -/
def World.filesUnder (w : World) (base : FsPath) : List (FsPath × FileData) :=
  w.files.filter (fun f => strictlyUnder base f.1)

/-- Model of `p.parent`: drop the last component (`Path(".")` is its own parent). -/
def parentDir (p : FsPath) : FsPath :=
  p.dropLast

/-- Model of `p.relative_to(base.parent)` for `p` below `base`: drop the components of
`base`'s parent, keeping `base`'s own name as the leading component. -/
def relToParent (base p : FsPath) : FsPath :=
  p.drop (parentDir base).length

/-- The archive entries produced from `skill_dir`: every regular file below it,
keyed by its path relative to `skill_dir`'s parent. -/
def arcEntries (w : World) (skill_dir : FsPath) : List (FsPath × FileData) :=
  (w.filesUnder skill_dir).map (fun f => (relToParent skill_dir f.1, f.2))

/-- Model of `zipfile.ZipFile(p, "w", ZIP_DEFLATED)` followed by writing `es`:
truncates any regular file at `p`, raises `IsADirectoryError` when `p` is a
directory. -/
def World.writeArchive (w : World) (p : FsPath) (es : List (FsPath × FileData)) :
    Except PyErr World :=
  if w.isDir p then .error .isADirectoryError
  else .ok (w.setFile p (.archive es))

/-- The metadata filename `"SKILL.md"`. -/
def smdName : Str := ("SKILL.md").data

/-- The frontmatter delimiter `"---"`. -/
def ddd : Str := ("---").data

/-- The required key `"name"`. -/
def nameKey : Str := ("name").data

/-- The required key `"description"`. -/
def descKey : Str := ("description").data

/-- The output filename suffix `".skill"`. -/
def dotSkill : Str := (".skill").data

/-- The expression `content.split("---", 2)` as executed at line 42 of the source, inside
`validate_skill`. -/
def validatorParts (content : Str) : List Str :=
  pySplit ddd 2 content

/-- The expression `content.split("---", 2)` as executed at line 82 of the source, inside
`package_skill`. -/
def archiverParts (content : Str) : List Str :=
  pySplit ddd 2 content

/-- Model of `validate_skill(skill_dir)`, lines 19-66 of the source: check that
`SKILL.md` exists, read it, require the `---` sentinel, split out the
frontmatter block, parse it, and require a truthy result containing `name`
and `description` under Python `in`.  Exceptions other than the caught
`yaml.YAMLError` propagate as `.error`. -/
def validate_skill (parse : ParseFn) (w : World) (skill_dir : FsPath) :
    Except PyErr Bool :=
  if (w.pathExists (skill_dir ++ [smdName])) = false then .ok false
  else
    match w.read_text (skill_dir ++ [smdName]) with
    | .error e => .error e
    | .ok content =>
      if (pyStartsWith ddd content) = false then .ok false
      else if (validatorParts content).length < 3 then .ok false
      else
        match parse ((validatorParts content).getD 1 []) with
        | .error _ => .ok false
        | .ok metadata =>
          if metadata.truthy = false then .ok false
          else
            match pyIn nameKey metadata with
            | .error e => .error e
            | .ok b1 =>
              if b1 = false then .ok false
              else
                match pyIn descKey metadata with
                | .error e => .error e
                | .ok b2 => if b2 = false then .ok false else .ok true

/-- Model of `package_skill(skill_dir, output_dir)`, lines 69-102 of the source:
re-read and re-parse `SKILL.md`, take `metadata["name"]`, create the output
directory, then write every regular file below `skill_dir` into
`<output_dir>/<name>.skill` under its path relative to `skill_dir`'s parent.
The world mutated so far is returned alongside the result, since an
exception after `mkdir` leaves the created directories behind. -/
def package_skill (parse : ParseFn) (w : World) (skill_dir output_dir : FsPath) :
    World × Except PyErr FsPath :=
  match w.read_text (skill_dir ++ [smdName]) with
  | .error e => (w, .error e)
  | .ok content =>
    match (archiverParts content)[1]? with
    | none => (w, .error .indexError)
    | some block =>
      match parse block with
      | .error _ => (w, .error .yamlError)
      | .ok metadata =>
        match metadata.getItem nameKey with
        | .error e => (w, .error e)
        | .ok skill_name =>
          match w.mkdirParents output_dir with
          | .error e => (w, .error e)
          | .ok w1 =>
            match w1.writeArchive (output_dir ++ [pyToStr skill_name ++ dotSkill])
                (arcEntries w1 skill_dir) with
            | .error e => (w1, .error e)
            | .ok w2 => (w2, .ok (output_dir ++ [pyToStr skill_name ++ dotSkill]))

/-- How the process ends: `sys.exit(code)` / normal return, or an uncaught
exception (which makes the interpreter terminate with status 1). -/
inductive Outcome where
  | exit (code : Nat)
  | crashed (e : PyErr)
  deriving DecidableEq, Repr

/-- The process exit status an `Outcome` produces: an uncaught exception
terminates the Python interpreter with status 1. -/
def statusOf : Outcome → Nat
  | .exit c => c
  | .crashed _ => 1

/-- Model of `main()`, lines 105-144 of the source, after argument parsing: check the
source path exists and is a directory, run `validate_skill` (aborting with
status 1 on `False`), then run `package_skill` with every exception caught
and turned into status 1.  The returned `Option FsPath` is the output path
printed on success. -/
def main (parse : ParseFn) (w : World) (skill_dir output_dir : FsPath) :
    World × Outcome × Option FsPath :=
  if (w.pathExists skill_dir) = false then (w, .exit 1, none)
  else if (w.isDir skill_dir) = false then (w, .exit 1, none)
  else
    match validate_skill parse w skill_dir with
    | .error e => (w, .crashed e, none)
    | .ok false => (w, .exit 1, none)
    | .ok true =>
      match package_skill parse w skill_dir output_dir with
      | (w2, .error _) => (w2, .exit 1, none)
      | (w2, .ok out) => (w2, .exit 0, some out)

/-- The world `mkdir(parents=True, exist_ok=True)` leaves behind on success. -/
def afterMkdir (w : World) (p : FsPath) : World :=
  { files := w.files, dirs := w.dirs ++ pathTakes p }

/-- Whether an `Except` result is an error. -/
def isErrB {α : Type} : Except PyErr α → Bool
  | .error _ => true
  | .ok _ => false

/-- What `package_skill` is supposed to leave in the archive at `out`, in
terms of the files of the pre-call world `wPre`: exactly the regular files
below `sd`, each under its path relative to `sd`'s parent, every entry path
opening with `sd`'s own final component. -/
def archiveSpec (wPre : World) (sd : FsPath) (w2 : World) (out : FsPath) : Prop :=
  ∃ E, w2.readFile out = some (.archive E) ∧
    (∀ p d, ((p, d) ∈ E) ↔
      ∃ rest, rest ≠ [] ∧ (sd ++ rest, d) ∈ wPre.files ∧
        p = relToParent sd (sd ++ rest)) ∧
    (∀ p d, ((p, d) ∈ E) →
      ∃ rest, rest ≠ [] ∧ p = sd.drop (sd.length - 1) ++ rest)

instance instDecEqExcept {ε α : Type} [DecidableEq ε] [DecidableEq α] :
    DecidableEq (Except ε α)
  | .ok x, .ok y =>
    if h : x = y then .isTrue (by rw [h])
    else .isFalse (fun hh => h (Except.ok.inj hh))
  | .ok _, .error _ => .isFalse (fun hh => Except.noConfusion hh)
  | .error _, .ok _ => .isFalse (fun hh => Except.noConfusion hh)
  | .error x, .error y =>
    if h : x = y then .isTrue (by rw [h])
    else .isFalse (fun hh => h (Except.error.inj hh))

/-! ## Concrete instances used by the examples below -/

/-- Build a path from string literals. -/
def pp (l : List String) : FsPath :=
  l.map String.data

/-- Concrete instance of the external YAML parser interface, recording
`yaml.safe_load`'s behaviour on the frontmatter blocks that occur in the
concrete files of this development: a plain `key: value` block parses to a
mapping, a bare number to an integer, a bare phrase to a scalar string. -/
def yamlTable : ParseFn := fun s =>
  if s == ("\nname: demo\ndescription: demo skill\n").data then
    .ok (.vdict [(("name").data, .vstr ("demo").data),
                 (("description").data, .vstr ("demo skill").data)])
  else if s == ("name: x\ndescription: y\n").data then
    .ok (.vdict [(("name").data, .vstr ("x").data),
                 (("description").data, .vstr ("y").data)])
  else if s == ("\nname: a").data then
    .ok (.vdict [(("name").data, .vstr ("a").data)])
  else if s == ("\n42\n").data then
    .ok (.vint 42)
  else if s == ("\nname and description\n").data then
    .ok (.vstr ("name and description").data)
  else
    .error ()

/-- A well-formed metadata file. -/
def goodContent : Str :=
  ("---\nname: demo\ndescription: demo skill\n---\nBody text\n").data

/-- A metadata file whose frontmatter block is the bare scalar `42`. -/
def intContent : Str :=
  ("---\n42\n---").data

/-- A metadata file whose frontmatter block is a bare phrase, a YAML scalar
string that happens to contain `name` and `description` as substrings. -/
def strContent : Str :=
  ("---\nname and description\n---").data

/-- A metadata file whose opening line is not exactly the delimiter. -/
def inlineContent : Str :=
  ("---name: x\ndescription: y\n--- body").data

/-- A metadata file whose frontmatter holds a `---` in the middle of a line. -/
def midDashContent : Str :=
  ("---\nname: a---\ndescription: d\n---").data

/-- A well-formed skill directory `demo/` with two extra files, next to an
empty root. -/
def wDemo : World :=
  { files := [(pp ["demo", "SKILL.md"], .text goodContent),
              (pp ["demo", "a.txt"], .text ("hello").data),
              (pp ["demo", "sub", "b.txt"], .text ("bee").data)],
    dirs := [pp [], pp ["demo"], pp ["demo", "sub"]] }

/-- A directory `demo/` with no metadata file. -/
def wNoMd : World :=
  { files := [(pp ["demo", "a.txt"], .text ("hello").data)],
    dirs := [pp [], pp ["demo"]] }

/-- A directory whose metadata frontmatter is the scalar `42`. -/
def wInt : World :=
  { files := [(pp ["demo", "SKILL.md"], .text intContent)],
    dirs := [pp [], pp ["demo"]] }

/-- A directory whose metadata frontmatter is a bare phrase. -/
def wStr : World :=
  { files := [(pp ["demo", "SKILL.md"], .text strContent)],
    dirs := [pp [], pp ["demo"]] }

/-- A directory whose metadata opens with `---name: x` on the first line. -/
def wInline : World :=
  { files := [(pp ["s", "SKILL.md"], .text inlineContent)],
    dirs := [pp [], pp ["s"]] }

/-- A directory whose metadata holds a mid-line `---` inside the block. -/
def wMidDash : World :=
  { files := [(pp ["s", "SKILL.md"], .text midDashContent)],
    dirs := [pp [], pp ["s"]] }

/-- A well-formed skill directory next to an output directory that already
holds a *directory* named `demo.skill`. -/
def wBlocked : World :=
  { files := [(pp ["demo", "SKILL.md"], .text goodContent)],
    dirs := [pp [], pp ["demo"], pp ["out"], pp ["out", "demo.skill"]] }

/-! ## Helper lemmas about the filesystem model -/

theorem readFile_setFile_self (w : World) (p : FsPath) (d : FileData) :
    (w.setFile p d).readFile p = some d := by
  simp [World.setFile, World.readFile, List.find?_cons_of_pos]

theorem find?_filter_ne (l : List (FsPath × FileData)) (p q : FsPath) (hne : q ≠ p) :
    (l.filter (fun f => !(f.1 == p))).find? (fun f => f.1 == q) =
      l.find? (fun f => f.1 == q) := by
  induction l with
  | nil => rfl
  | cons f t ih =>
    by_cases hfp : f.1 = p
    · have h1 : (f.1 == p) = true := beq_iff_eq.mpr hfp
      have h2 : (f.1 == q) = false := beq_eq_false_iff_ne.mpr (by rw [hfp]; exact fun h => hne h.symm)
      simp [List.filter_cons, h1, h2, List.find?_cons, ih]
    · have h1 : (f.1 == p) = false := beq_eq_false_iff_ne.mpr hfp
      by_cases hfq : f.1 = q
      · have h2 : (f.1 == q) = true := beq_iff_eq.mpr hfq
        simp [List.filter_cons, h1, List.find?_cons, h2]
      · have h2 : (f.1 == q) = false := beq_eq_false_iff_ne.mpr hfq
        simp [List.filter_cons, h1, List.find?_cons, h2, ih]

theorem readFile_setFile_ne (w : World) (p q : FsPath) (d : FileData) (hne : q ≠ p) :
    (w.setFile p d).readFile q = w.readFile q := by
  have h1 : (p == q) = false := beq_eq_false_iff_ne.mpr (fun h => hne h.symm)
  simp [World.setFile, World.readFile, List.find?_cons, h1, find?_filter_ne _ _ _ hne]

theorem any_filter_ne (l : List (FsPath × FileData)) (p q : FsPath) (hne : q ≠ p) :
    ((l.filter (fun f => !(f.1 == p))).any (fun f => f.1 == q)) =
      l.any (fun f => f.1 == q) := by
  induction l with
  | nil => rfl
  | cons f t ih =>
    by_cases hfp : f.1 = p
    · have h1 : (f.1 == p) = true := beq_iff_eq.mpr hfp
      have h2 : (f.1 == q) = false := beq_eq_false_iff_ne.mpr (by rw [hfp]; exact fun h => hne h.symm)
      simp [List.filter_cons, h1, h2, ih]
    · have h1 : (f.1 == p) = false := beq_eq_false_iff_ne.mpr hfp
      simp [List.filter_cons, h1, ih]

theorem isFile_setFile_ne (w : World) (p q : FsPath) (d : FileData) (hne : q ≠ p) :
    (w.setFile p d).isFile q = w.isFile q := by
  have h1 : (p == q) = false := beq_eq_false_iff_ne.mpr (fun h => hne h.symm)
  simp [World.setFile, World.isFile, h1, any_filter_ne _ _ _ hne]

theorem isDir_setFile (w : World) (p q : FsPath) (d : FileData) :
    (w.setFile p d).isDir q = w.isDir q := rfl

theorem readFile_afterMkdir (w : World) (od q : FsPath) :
    (afterMkdir w od).readFile q = w.readFile q := rfl

theorem isFile_afterMkdir (w : World) (od q : FsPath) :
    (afterMkdir w od).isFile q = w.isFile q := rfl

theorem isDir_afterMkdir (w : World) (od q : FsPath) :
    (afterMkdir w od).isDir q = (w.isDir q || (pathTakes od).any (fun r => r == q)) := by
  simp [afterMkdir, World.isDir, List.any_append]

theorem length_mem_pathTakes {od q : FsPath} (h : q ∈ pathTakes od) :
    q.length ≤ od.length := by
  simp only [pathTakes, List.mem_map, List.mem_range] at h
  obtain ⟨i, _, rfl⟩ := h
  simp [List.length_take]

theorem append_single_not_mem_pathTakes (od : FsPath) (y : Str) :
    ∀ q ∈ pathTakes od, (q == od ++ [y]) = false := by
  intro q hq
  refine beq_eq_false_iff_ne.mpr (fun h => ?_)
  have h1 := length_mem_pathTakes hq
  have h2 : q.length = od.length + 1 := by rw [h]; simp
  omega

theorem strictlyUnder_iff (b p : FsPath) :
    strictlyUnder b p = true ↔ ∃ rest, rest ≠ [] ∧ p = b ++ rest := by
  constructor
  · intro h
    simp only [strictlyUnder, Bool.and_eq_true, decide_eq_true_eq, beq_iff_eq] at h
    refine ⟨p.drop b.length, ?_, ?_⟩
    · intro hnil
      have := congrArg List.length hnil
      simp [List.length_drop] at this
      omega
    · conv_lhs => rw [← List.take_append_drop b.length p]
      rw [h.2]
  · rintro ⟨rest, hne, rfl⟩
    have hpos : 0 < rest.length := List.length_pos.mpr hne
    simp only [strictlyUnder, Bool.and_eq_true, decide_eq_true_eq, beq_iff_eq]
    constructor
    · simp; omega
    · simp

theorem relToParent_append (sd rest : FsPath) :
    relToParent sd (sd ++ rest) = sd.drop (sd.length - 1) ++ rest := by
  simp only [relToParent, parentDir, List.length_dropLast]
  rw [List.drop_append_of_le_length (by omega)]

theorem arcEntries_afterMkdir (w : World) (od sd : FsPath) :
    arcEntries (afterMkdir w od) sd = arcEntries w sd := rfl

theorem under_filter (l : List (FsPath × FileData)) (sd p : FsPath)
    (h : strictlyUnder sd p = false) :
    (l.filter (fun f => !(f.1 == p))).filter (fun f => strictlyUnder sd f.1) =
      l.filter (fun f => strictlyUnder sd f.1) := by
  induction l with
  | nil => rfl
  | cons f t ih =>
    by_cases hfp : f.1 = p
    · have h1 : (f.1 == p) = true := beq_iff_eq.mpr hfp
      have h2 : strictlyUnder sd f.1 = false := by rw [hfp]; exact h
      simp [List.filter_cons, h1, h2, ih]
    · have h1 : (f.1 == p) = false := beq_eq_false_iff_ne.mpr hfp
      simp only [List.filter_cons, h1, Bool.not_false, if_true]
      by_cases h2 : strictlyUnder sd f.1 = true
      · simp [List.filter_cons, h2, ih]
      · simp only [Bool.not_eq_true] at h2
        simp [List.filter_cons, h2, ih]

theorem filesUnder_setFile_not_under (w : World) (sd p : FsPath) (d : FileData)
    (h : strictlyUnder sd p = false) :
    (w.setFile p d).filesUnder sd = w.filesUnder sd := by
  simp [World.setFile, World.filesUnder, List.filter_cons, h, under_filter _ _ _ h]

/-! ## Inversion lemmas for the validator and the archiver -/

theorem parts_idx (c : Str) (h : 3 ≤ (validatorParts c).length) :
    (archiverParts c)[1]? = some ((validatorParts c).getD 1 []) := by
  have heq : archiverParts c = validatorParts c := rfl
  rcases hl : validatorParts c with _ | ⟨a, tl⟩
  · rw [hl] at h; simp at h
  · rcases tl with _ | ⟨b, t2⟩
    · rw [hl] at h; simp at h
    · rw [heq, hl]; simp

theorem validate_true_elim {parse : ParseFn} {w : World} {sd : FsPath}
    (h : validate_skill parse w sd = .ok true) :
    ∃ content m,
      w.read_text (sd ++ [smdName]) = .ok content ∧
      pyStartsWith ddd content = true ∧
      3 ≤ (validatorParts content).length ∧
      parse ((validatorParts content).getD 1 []) = .ok m ∧
      m.truthy = true ∧
      pyIn nameKey m = .ok true ∧
      pyIn descKey m = .ok true := by
  unfold validate_skill at h
  split at h
  · simp at h
  next hex =>
    split at h
    next e heq => simp at h
    next content heq =>
      split at h
      · simp at h
      next hsw =>
        split at h
        · simp at h
        next hlen =>
          split at h
          next heqp => simp at h
          next m heqp =>
            split at h
            · simp at h
            next htr =>
              split at h
              next e heqn => simp at h
              next b1 heqn =>
                split at h
                · simp at h
                next hb1 =>
                  split at h
                  next e heqd => simp at h
                  next b2 heqd =>
                    split at h
                    · simp at h
                    next hb2 =>
                      have hsw' : pyStartsWith ddd content = true := by
                        revert hsw; cases pyStartsWith ddd content <;> simp
                      have htr' : m.truthy = true := by
                        revert htr; cases m.truthy <;> simp
                      have hb1' : b1 = true := by
                        revert hb1; cases b1 <;> simp
                      have hb2' : b2 = true := by
                        revert hb2; cases b2 <;> simp
                      subst hb1'; subst hb2'
                      exact ⟨content, m, heq, hsw', by omega, heqp, htr', heqn, heqd⟩

theorem package_ok_elim {parse : ParseFn} {w : World} {sd od : FsPath}
    {w2 : World} {out : FsPath}
    (h : package_skill parse w sd od = (w2, .ok out)) :
    ∃ content block m nv,
      w.read_text (sd ++ [smdName]) = .ok content ∧
      (archiverParts content)[1]? = some block ∧
      parse block = .ok m ∧
      m.getItem nameKey = .ok nv ∧
      ((pathTakes od).any fun q => w.isFile q) = false ∧
      (afterMkdir w od).isDir (od ++ [pyToStr nv ++ dotSkill]) = false ∧
      out = od ++ [pyToStr nv ++ dotSkill] ∧
      w2 = (afterMkdir w od).setFile (od ++ [pyToStr nv ++ dotSkill])
        (.archive (arcEntries (afterMkdir w od) sd)) := by
  unfold package_skill at h
  split at h
  next e heq => simp at h
  next content heq =>
    split at h
    next heq1 => simp at h
    next block heq1 =>
      split at h
      next heq2 => simp at h
      next m heq2 =>
        split at h
        next e heq3 => simp at h
        next nv heq3 =>
          split at h
          next e heq4 => simp at h
          next w1 heq4 =>
            split at h
            next e heq5 => simp at h
            next w2x heq5 =>
              rw [Prod.mk.injEq] at h
              obtain ⟨hw, ho⟩ := h
              have hout := Except.ok.inj ho
              unfold World.mkdirParents at heq4
              split at heq4
              next => simp at heq4
              next hany =>
                have hany' : ((pathTakes od).any fun q => w.isFile q) = false := by
                  revert hany
                  cases (pathTakes od).any fun q => w.isFile q <;> simp
                have hw1 : w1 = afterMkdir w od := (Except.ok.inj heq4).symm
                subst hw1
                unfold World.writeArchive at heq5
                split at heq5
                next => simp at heq5
                next hdir =>
                  have hdir' :
                      (afterMkdir w od).isDir (od ++ [pyToStr nv ++ dotSkill]) = false := by
                    revert hdir
                    cases (afterMkdir w od).isDir (od ++ [pyToStr nv ++ dotSkill]) <;> simp
                  have hw2x : w2x =
                      (afterMkdir w od).setFile (od ++ [pyToStr nv ++ dotSkill])
                        (.archive (arcEntries (afterMkdir w od) sd)) :=
                    (Except.ok.inj heq5).symm
                  exact ⟨content, block, m, nv, heq, heq1, heq2, heq3, hany', hdir',
                    hout.symm, by rw [← hw, hw2x]⟩

theorem package_ok_intro {parse : ParseFn} {w : World} {sd od : FsPath}
    {content block : Str} {m nv : PyVal}
    (h1 : w.read_text (sd ++ [smdName]) = .ok content)
    (h2 : (archiverParts content)[1]? = some block)
    (h3 : parse block = .ok m)
    (h4 : m.getItem nameKey = .ok nv)
    (h5 : ((pathTakes od).any fun q => w.isFile q) = false)
    (h6 : (afterMkdir w od).isDir (od ++ [pyToStr nv ++ dotSkill]) = false) :
    package_skill parse w sd od =
      ((afterMkdir w od).setFile (od ++ [pyToStr nv ++ dotSkill])
         (.archive (arcEntries (afterMkdir w od) sd)),
       .ok (od ++ [pyToStr nv ++ dotSkill])) := by
  have hmk : w.mkdirParents od = .ok (afterMkdir w od) := by
    unfold World.mkdirParents
    rw [h5]
    rfl
  have hwa : (afterMkdir w od).writeArchive (od ++ [pyToStr nv ++ dotSkill])
      (arcEntries (afterMkdir w od) sd) =
      .ok ((afterMkdir w od).setFile (od ++ [pyToStr nv ++ dotSkill])
        (.archive (arcEntries (afterMkdir w od) sd))) := by
    unfold World.writeArchive
    rw [h6]
    rfl
  unfold package_skill
  simp only [h1, h2, h3, h4, hmk, hwa]

theorem validate_error_package {parse : ParseFn} {w : World} {sd : FsPath} {e : PyErr}
    (h : validate_skill parse w sd = .error e) (od : FsPath) :
    isErrB (package_skill parse w sd od).2 = true := by
  unfold validate_skill at h
  split at h
  · simp at h
  next hex =>
    split at h
    next e0 heq =>
      unfold package_skill
      rw [heq]
      rfl
    next content heq =>
      split at h
      · simp at h
      next hsw =>
        split at h
        · simp at h
        next hlen =>
          split at h
          next heqp => simp at h
          next m heqp =>
            split at h
            · simp at h
            next htr =>
              split at h
              next e0 heqn =>
                have hidx : (archiverParts content)[1]? =
                    some ((validatorParts content).getD 1 []) :=
                  parts_idx content (by omega)
                unfold package_skill
                rw [heq]
                simp only [hidx, heqp]
                cases m with
                | vnone => rfl
                | vint n => rfl
                | vstr s => simp [pyIn] at heqn
                | vlist xs => simp [pyIn] at heqn
                | vdict kvs => simp [pyIn] at heqn
              next b1 heqn =>
                split at h
                · simp at h
                next hb1 =>
                  split at h
                  next e0 heqd =>
                    cases m <;> simp [pyIn] at heqn heqd
                  next b2 heqd =>
                    split at h
                    · simp at h
                    · simp at h

theorem pySplit_succ (sep : Str) (k : Nat) (s pre post : Str)
    (h : findSplit sep s = some (pre, post)) :
    pySplit sep (k + 1) s = pre :: pySplit sep k post := by
  show pySplit sep (Nat.succ k) s = pre :: pySplit sep k post
  simp only [pySplit, h]

theorem read_text_ok_elim {w : World} {p : FsPath} {c : Str}
    (h : w.read_text p = .ok c) : w.readFile p = some (.text c) := by
  unfold World.read_text at h
  split at h
  next s heq =>
    have := Except.ok.inj h
    subst this
    exact heq
  next heq => simp at h
  next heq => simp at h

theorem mem_arcEntries (w : World) (sd : FsPath) (p : FsPath) (d : FileData) :
    ((p, d) ∈ arcEntries w sd) ↔
      ∃ rest, rest ≠ [] ∧ (sd ++ rest, d) ∈ w.files ∧
        p = relToParent sd (sd ++ rest) := by
  unfold arcEntries World.filesUnder
  rw [List.mem_map]
  constructor
  · rintro ⟨⟨q, d0⟩, hmem, heq⟩
    rw [List.mem_filter] at hmem
    obtain ⟨hqmem, hunder⟩ := hmem
    obtain ⟨rest, hne, rfl⟩ := (strictlyUnder_iff sd q).mp hunder
    obtain ⟨h1, h2⟩ := Prod.mk.injEq .. |>.mp heq
    subst h2
    exact ⟨rest, hne, hqmem, h1.symm⟩
  · rintro ⟨rest, hne, hmem, rfl⟩
    exact ⟨(sd ++ rest, d),
      List.mem_filter.mpr ⟨hmem, (strictlyUnder_iff sd _).mpr ⟨rest, hne, rfl⟩⟩, rfl⟩

theorem arcEntries_setFile_not_under (w : World) (sd p : FsPath) (d : FileData)
    (h : strictlyUnder sd p = false) :
    arcEntries (w.setFile p d) sd = arcEntries w sd := by
  unfold arcEntries
  rw [filesUnder_setFile_not_under _ _ _ _ h]

theorem any_pathTakes_append_single (od : FsPath) (y : Str) :
    ((pathTakes od).any fun r => r == od ++ [y]) = false := by
  rw [List.any_eq_false]
  intro q hq
  simp [append_single_not_mem_pathTakes od y q hq]

theorem out_ne_md (od sd : FsPath) (y : Str) :
    od ++ [y ++ dotSkill] ≠ sd ++ [smdName] := by
  intro h
  have h1 : some (y ++ dotSkill) = some smdName := by
    have h0 := congrArg List.getLast? h
    simpa using h0
  have h2 : y ++ dotSkill = smdName := Option.some.inj h1
  have h3 := congrArg List.getLast? h2
  rw [List.getLast?_append] at h3
  rw [(by decide : List.getLast? dotSkill = some 'l'),
    (by decide : List.getLast? smdName = some 'd')] at h3
  simp [Option.or] at h3

/-! ## The claims -/

/-- Claim C1: the claim says `validate_skill` returns `False` in every listed
failure case, in particular when the parsed frontmatter lacks the key
`name`.  Evaluating the code on a metadata file whose frontmatter block is
the bare scalar `42` (which parses, is truthy, and has no keys at all) shows
the code instead raising an uncaught `TypeError` out of `"name" in metadata`,
never returning `False`. -/
theorem claim_C1_code_eval :
    yamlTable ((validatorParts intContent).getD 1 []) = .ok (.vint 42) ∧
    pyIn nameKey (.vint 42) = .error .typeError ∧
    validate_skill yamlTable wInt (pp ["demo"]) = .error .typeError :=
  ⟨rfl, rfl, rfl⟩

/-- Claim C2: the claim says `validate_skill` returns failure whenever the
extracted block does not parse to a key-to-value mapping.  Evaluating the
code on a metadata file whose block parses to the plain YAML scalar string
`name and description` (not a mapping) shows the code returning `True`:
Python's `in` operator degenerates to a substring test on strings. -/
theorem claim_C2_code_eval :
    yamlTable ((validatorParts strContent).getD 1 []) =
      .ok (.vstr (("name and description").data)) ∧
    PyVal.isDict (.vstr (("name and description").data)) = false ∧
    validate_skill yamlTable wStr (pp ["demo"]) = .ok true :=
  ⟨rfl, rfl, rfl⟩

/-- Claim C3: on success, `package_skill` writes at the returned path an
archive containing exactly the regular files below the source directory,
each under its path relative to the source directory's parent, so every
entry path opens with the source directory's own final component. -/
theorem claim_C3_archive_entries (parse : ParseFn) (w : World) (sd od out : FsPath)
    (h : (package_skill parse w sd od).2 = .ok out) :
    archiveSpec w sd (package_skill parse w sd od).1 out := by
  have hpair : package_skill parse w sd od = ((package_skill parse w sd od).1, .ok out) := by
    rw [← h]
  obtain ⟨content, block, m, nv, hc, hb, hm, hn, hany, hdir, hout, hw2⟩ :=
    package_ok_elim hpair
  rw [hw2, hout]
  refine ⟨arcEntries w sd, readFile_setFile_self _ _ _, fun p d => mem_arcEntries w sd p d,
    fun p d hmem => ?_⟩
  obtain ⟨rest, hne, _, hp⟩ := (mem_arcEntries w sd p d).mp hmem
  exact ⟨rest, hne, by rw [hp, relToParent_append]⟩

/-- Witness for C3: packaging the concrete directory `demo/` into `out/`
produces `out/demo.skill` satisfying the entry specification. -/
theorem claim_C3_witness :
    archiveSpec wDemo (pp ["demo"])
      (package_skill yamlTable wDemo (pp ["demo"]) (pp ["out"])).1
      (pp ["out", "demo.skill"]) :=
  claim_C3_archive_entries yamlTable wDemo (pp ["demo"]) (pp ["out"])
    (pp ["out", "demo.skill"]) rfl

/-- Claim C4: on an unmodified world, the Validator and the Archiver split
the same content with the same `split("---", 2)` and parse the same block,
so the `name` value used for the output filename is the very value whose
presence validation checked. -/
theorem claim_C4_same_name :
    (∀ content : Str, validatorParts content = archiverParts content) ∧
    (∀ (parse : ParseFn) (w : World) (sd od out : FsPath),
      validate_skill parse w sd = .ok true →
      (package_skill parse w sd od).2 = .ok out →
      ∃ content m nv,
        w.read_text (sd ++ [smdName]) = .ok content ∧
        parse ((validatorParts content).getD 1 []) = .ok m ∧
        pyIn nameKey m = .ok true ∧
        m.getItem nameKey = .ok nv ∧
        out = od ++ [pyToStr nv ++ dotSkill]) := by
  constructor
  · intro c; rfl
  · intro parse w sd od out hv hp
    obtain ⟨content, m, hc, hsw, hlen, hparse, htr, hnin, hdin⟩ := validate_true_elim hv
    have hpair : package_skill parse w sd od = ((package_skill parse w sd od).1, .ok out) := by
      rw [← hp]
    obtain ⟨content2, block2, m2, nv, hc2, hb2, hm2, hn2, _, _, hout, _⟩ :=
      package_ok_elim hpair
    have hcc : content = content2 := Except.ok.inj (hc.symm.trans hc2)
    subst hcc
    have hb3 := parts_idx content hlen
    have hbb : block2 = (validatorParts content).getD 1 [] :=
      Option.some.inj (hb2.symm.trans hb3)
    subst hbb
    have hmm : m = m2 := Except.ok.inj (hparse.symm.trans hm2)
    subst hmm
    exact ⟨content, m, nv, hc, hparse, hnin, hn2, hout⟩

/-- Witness for C4: on the concrete directory `demo/`, the name validated
and the name in the produced filename agree. -/
theorem claim_C4_witness :
    ∃ content m nv,
      wDemo.read_text (pp ["demo"] ++ [smdName]) = .ok content ∧
      yamlTable ((validatorParts content).getD 1 []) = .ok m ∧
      pyIn nameKey m = .ok true ∧
      m.getItem nameKey = .ok nv ∧
      pp ["out", "demo.skill"] = pp ["out"] ++ [pyToStr nv ++ dotSkill] :=
  claim_C4_same_name.2 yamlTable wDemo (pp ["demo"]) (pp ["out"])
    (pp ["out", "demo.skill"]) rfl rfl

/-- Claim C5: whenever `validate_skill` returns `False`, the entry point
exits with status 1 with the world unchanged — `package_skill` is never
invoked and no archive is created or written. -/
theorem claim_C5_no_archive (parse : ParseFn) (w : World) (sd od : FsPath)
    (h : validate_skill parse w sd = .ok false) :
    main parse w sd od = (w, .exit 1, none) := by
  unfold main
  split
  · rfl
  · split
    · rfl
    · simp only [h]

/-- Witness for C5: on a directory with no metadata file, validation fails
and the run exits 1 leaving the world untouched. -/
theorem claim_C5_witness :
    validate_skill yamlTable wNoMd (pp ["demo"]) = .ok false ∧
    main yamlTable wNoMd (pp ["demo"]) (pp ["out"]) = (wNoMd, .exit 1, none) :=
  ⟨rfl, claim_C5_no_archive yamlTable wNoMd (pp ["demo"]) (pp ["out"]) rfl⟩

/-- Claim C6: the entry point produces exit status 1 exactly when the source
path does not exist, or is not a directory, or `validate_skill` returns
failure, or `package_skill` raises; otherwise it terminates with status 0
having printed the output path.  An uncaught exception escaping
`validate_skill` terminates the interpreter with status 1, and in exactly
those worlds `package_skill` raises too, so the characterization is exact. -/
theorem claim_C6_exit_status (parse : ParseFn) (w : World) (sd od : FsPath) :
    (statusOf (main parse w sd od).2.1 = 1 ↔
      (w.pathExists sd = false ∨ w.isDir sd = false ∨
        validate_skill parse w sd = .ok false ∨
        isErrB (package_skill parse w sd od).2 = true)) ∧
    (statusOf (main parse w sd od).2.1 = 0 ↔
      ¬(w.pathExists sd = false ∨ w.isDir sd = false ∨
        validate_skill parse w sd = .ok false ∨
        isErrB (package_skill parse w sd od).2 = true)) ∧
    (statusOf (main parse w sd od).2.1 = 0 →
      ∃ p, (main parse w sd od).2.2 = some p ∧
        (package_skill parse w sd od).2 = .ok p) := by
  cases hex : w.pathExists sd with
  | false =>
    have hmain : main parse w sd od = (w, .exit 1, none) := by
      simp [main, hex]
    simp [hmain, statusOf]
  | true =>
    cases hdir : w.isDir sd with
    | false =>
      have hmain : main parse w sd od = (w, .exit 1, none) := by
        simp [main, hex, hdir]
      simp [hmain, statusOf]
    | true =>
      cases hval : validate_skill parse w sd with
      | error e =>
        have hmain : main parse w sd od = (w, .crashed e, none) := by
          simp [main, hex, hdir, hval]
        have hpkg : isErrB (package_skill parse w sd od).2 = true :=
          validate_error_package hval od
        simp [hmain, statusOf, hpkg]
      | ok b =>
        cases b with
        | false =>
          have hmain : main parse w sd od = (w, .exit 1, none) := by
            simp [main, hex, hdir, hval]
          simp [hmain, statusOf]
        | true =>
          rcases hpk : package_skill parse w sd od with ⟨w2, r⟩
          cases r with
          | error e =>
            have hmain : main parse w sd od = (w2, .exit 1, none) := by
              simp [main, hex, hdir, hval, hpk]
            simp [hmain, statusOf, isErrB]
          | ok out =>
            have hmain : main parse w sd od = (w2, .exit 0, some out) := by
              simp [main, hex, hdir, hval, hpk]
            refine ⟨by simp [hmain, statusOf, isErrB], by simp [hmain, statusOf, isErrB],
              fun _ => ⟨out, by simp [hmain], rfl⟩⟩

/-- Witness for C6: the concrete run on `demo/` terminates with status 0. -/
theorem claim_C6_witness :
    statusOf (main yamlTable wDemo (pp ["demo"]) (pp ["out"])).2.1 = 0 :=
  (claim_C6_exit_status yamlTable wDemo (pp ["demo"]) (pp ["out"])).2.1.mpr (by decide)

/-- Counterexample to C7 as stated: a source directory with metadata name
`demo` and an output directory `out/` that already exists, yet
`package_skill` does not succeed and does not return `out/demo.skill`,
because a *directory* named `demo.skill` occupies the output file path and
opening the archive for writing raises `IsADirectoryError`. -/
theorem claim_C7_counterexample :
    wBlocked.isDir (pp ["out"]) = true ∧
    validate_skill yamlTable wBlocked (pp ["demo"]) = .ok true ∧
    (package_skill yamlTable wBlocked (pp ["demo"]) (pp ["out"])).2 =
      .error .isADirectoryError :=
  ⟨rfl, rfl, rfl⟩

/-- Claim C7 as amended: for a source whose metadata has string name `N` and
an output directory `D` such that no regular file occupies `D` or an
ancestor of `D` and no directory occupies `D/N.skill`, `package_skill`
creates `D` and its missing ancestors (succeeding when they already exist)
and returns `D/N.skill`, where the archive is written. -/
theorem claim_C7_output_dir (parse : ParseFn) (w : World) (sd od : FsPath)
    (content block : Str) (m : PyVal) (N : Str)
    (h1 : w.read_text (sd ++ [smdName]) = .ok content)
    (h2 : (archiverParts content)[1]? = some block)
    (h3 : parse block = .ok m)
    (h4 : m.getItem nameKey = .ok (.vstr N))
    (h5 : ((pathTakes od).any fun q => w.isFile q) = false)
    (h6 : w.isDir (od ++ [N ++ dotSkill]) = false) :
    ∃ w2, package_skill parse w sd od = (w2, .ok (od ++ [N ++ dotSkill])) ∧
      (∀ q ∈ pathTakes od, w2.isDir q = true) ∧
      w2.readFile (od ++ [N ++ dotSkill]) = some (.archive (arcEntries w sd)) := by
  have h6' : (afterMkdir w od).isDir (od ++ [pyToStr (PyVal.vstr N) ++ dotSkill]) = false := by
    show (afterMkdir w od).isDir (od ++ [N ++ dotSkill]) = false
    rw [isDir_afterMkdir, h6, any_pathTakes_append_single]
    rfl
  refine ⟨_, package_ok_intro h1 h2 h3 h4 h5 h6', fun q hq => ?_, ?_⟩
  · show ((afterMkdir w od).setFile _ _).isDir q = true
    rw [isDir_setFile, isDir_afterMkdir]
    have hone : ((pathTakes od).any fun r => r == q) = true :=
      List.any_eq_true.mpr ⟨q, hq, by simp⟩
    rw [hone]
    simp
  · exact readFile_setFile_self _ _ _

/-- Witness for C7 (amended): packaging `demo/` into the not-yet-existing
`out/` returns `out/demo.skill`, creates `out/`, and writes the archive
there. -/
theorem claim_C7_witness :
    ∃ w2, package_skill yamlTable wDemo (pp ["demo"]) (pp ["out"]) =
        (w2, .ok (pp ["out"] ++ [("demo").data ++ dotSkill])) ∧
      (∀ q ∈ pathTakes (pp ["out"]), w2.isDir q = true) ∧
      w2.readFile (pp ["out"] ++ [("demo").data ++ dotSkill]) =
        some (.archive (arcEntries wDemo (pp ["demo"]))) :=
  claim_C7_output_dir yamlTable wDemo (pp ["demo"]) (pp ["out"]) goodContent
    (("\nname: demo\ndescription: demo skill\n").data)
    (.vdict [(("name").data, .vstr (("demo").data)),
             (("description").data, .vstr (("demo skill").data))])
    (("demo").data) rfl rfl rfl rfl rfl rfl

/-- Claim C8: running `package_skill` a second time over the world produced
by a first successful run succeeds at the same output path, truncating the
prior archive: the final file holds the archive of the latest world's files
below the source directory, and when the output path is not below the
source directory those files are exactly the pre-existing source files,
independent of the prior archive. -/
theorem claim_C8_overwrite (parse : ParseFn) (w : World) (sd od out : FsPath)
    (h : (package_skill parse w sd od).2 = .ok out) :
    ∃ w2, package_skill parse (package_skill parse w sd od).1 sd od = (w2, .ok out) ∧
      w2.readFile out = some (.archive (arcEntries (package_skill parse w sd od).1 sd)) ∧
      (strictlyUnder sd out = false →
        arcEntries (package_skill parse w sd od).1 sd = arcEntries w sd) := by
  have hpair : package_skill parse w sd od = ((package_skill parse w sd od).1, .ok out) := by
    rw [← h]
  obtain ⟨content, block, m, nv, hc, hb, hm, hn, hany, hdir, hout, hw1⟩ :=
    package_ok_elim hpair
  rw [hw1, hout]
  have hwdir : w.isDir (od ++ [pyToStr nv ++ dotSkill]) = false := by
    have hh := hdir
    rw [isDir_afterMkdir, any_pathTakes_append_single] at hh
    simpa using hh
  have hne_md : (sd ++ [smdName]) ≠ od ++ [pyToStr nv ++ dotSkill] :=
    fun hh => out_ne_md od sd (pyToStr nv) hh.symm
  have g1 : ((afterMkdir w od).setFile (od ++ [pyToStr nv ++ dotSkill])
      (.archive (arcEntries (afterMkdir w od) sd))).read_text (sd ++ [smdName]) =
      .ok content := by
    have hr0 := read_text_ok_elim hc
    unfold World.read_text
    rw [readFile_setFile_ne _ _ _ _ hne_md, readFile_afterMkdir, hr0]
  have g5 : ((pathTakes od).any fun q =>
      ((afterMkdir w od).setFile (od ++ [pyToStr nv ++ dotSkill])
        (.archive (arcEntries (afterMkdir w od) sd))).isFile q) = false := by
    rw [List.any_eq_false]
    intro q hq
    have hqne : q ≠ od ++ [pyToStr nv ++ dotSkill] := by
      intro hqq
      have hl := length_mem_pathTakes hq
      have hlq : q.length = od.length + 1 := by rw [hqq]; simp
      omega
    rw [isFile_setFile_ne _ _ _ _ hqne, isFile_afterMkdir]
    have hf := List.any_eq_false.mp hany q hq
    exact hf
  have g6 : (afterMkdir ((afterMkdir w od).setFile (od ++ [pyToStr nv ++ dotSkill])
      (.archive (arcEntries (afterMkdir w od) sd))) od).isDir
      (od ++ [pyToStr nv ++ dotSkill]) = false := by
    rw [isDir_afterMkdir, isDir_setFile, isDir_afterMkdir,
      any_pathTakes_append_single, hwdir]
    rfl
  refine ⟨_, package_ok_intro g1 hb hm hn g5 g6, readFile_setFile_self _ _ _,
    fun hsu => ?_⟩
  rw [arcEntries_setFile_not_under _ _ _ _ hsu]
  rfl

/-- Witness for C8: running the packaging of `demo/` into `out/` a second
time over the world the first run produced. -/
theorem claim_C8_witness :
    ∃ w2, package_skill yamlTable
        (package_skill yamlTable wDemo (pp ["demo"]) (pp ["out"])).1
        (pp ["demo"]) (pp ["out"]) = (w2, .ok (pp ["out", "demo.skill"])) ∧
      w2.readFile (pp ["out", "demo.skill"]) =
        some (.archive (arcEntries
          (package_skill yamlTable wDemo (pp ["demo"]) (pp ["out"])).1 (pp ["demo"]))) ∧
      (strictlyUnder (pp ["demo"]) (pp ["out", "demo.skill"]) = false →
        arcEntries (package_skill yamlTable wDemo (pp ["demo"]) (pp ["out"])).1
          (pp ["demo"]) = arcEntries wDemo (pp ["demo"])) :=
  claim_C8_overwrite yamlTable wDemo (pp ["demo"]) (pp ["out"])
    (pp ["out", "demo.skill"]) rfl

/-- Counterexample to C9 as stated: a metadata file whose block is the YAML
scalar string `name and description` passes validation (substring
membership), yet `metadata["name"]` raises `TypeError`, so a passing
validation does not guarantee the archiver's name lookup succeeds. -/
theorem claim_C9_counterexample :
    validate_skill yamlTable wStr (pp ["demo"]) = .ok true ∧
    yamlTable ((validatorParts strContent).getD 1 []) =
      .ok (.vstr (("name and description").data)) ∧
    PyVal.getItem (.vstr (("name and description").data)) nameKey =
      .error .typeError :=
  ⟨rfl, rfl, rfl⟩

/-- Claim C9 as amended: when the parsed metadata is a mapping, a passing
validation guarantees that `metadata["name"]` succeeds on the same
unchanged content. -/
theorem claim_C9_lookup_safe (parse : ParseFn) (w : World) (sd : FsPath)
    (content : Str) (m : PyVal)
    (h1 : w.read_text (sd ++ [smdName]) = .ok content)
    (h2 : parse ((validatorParts content).getD 1 []) = .ok m)
    (h3 : m.isDict = true)
    (h4 : validate_skill parse w sd = .ok true) :
    ∃ v, m.getItem nameKey = .ok v := by
  obtain ⟨content2, m2, hc2, _, _, hp2, _, hnin, _⟩ := validate_true_elim h4
  have hcc : content = content2 := Except.ok.inj (h1.symm.trans hc2)
  subst hcc
  have hmm : m = m2 := Except.ok.inj (h2.symm.trans hp2)
  subst hmm
  cases m with
  | vdict kvs =>
    have hany : (kvs.any fun kv => kv.1 == nameKey) = true := Except.ok.inj hnin
    obtain ⟨kv, hkv, hkvk⟩ := List.any_eq_true.mp hany
    cases hfind : kvs.find? (fun kv => kv.1 == nameKey) with
    | none =>
      have hno := List.find?_eq_none.mp hfind kv hkv
      rw [hkvk] at hno
      simp at hno
    | some kv0 => exact ⟨kv0.2, by simp [PyVal.getItem, hfind]⟩
  | vnone => simp [PyVal.isDict] at h3
  | vint n => simp [PyVal.isDict] at h3
  | vstr s => simp [PyVal.isDict] at h3
  | vlist xs => simp [PyVal.isDict] at h3

/-- Witness for C9 (amended): the mapping metadata of `demo/` supports the
name lookup. -/
theorem claim_C9_witness :
    ∃ v, PyVal.getItem
      (.vdict [(("name").data, .vstr (("demo").data)),
               (("description").data, .vstr (("demo skill").data))]) nameKey = .ok v :=
  claim_C9_lookup_safe yamlTable wDemo (pp ["demo"]) goodContent
    (.vdict [(("name").data, .vstr (("demo").data)),
             (("description").data, .vstr (("demo skill").data))])
    rfl rfl rfl rfl

/-- Claim C10: the frontmatter checks are not line-anchored.  The block is
extracted up to the next `---` occurring anywhere in the remaining text, the
sentinel check looks only at the first three characters, a file opening with
`---name: x` (no delimiter line of its own) validates, and a `---` in the
middle of a value line truncates the block there (here losing the
`description` field, so validation fails). -/
theorem claim_C10_not_line_anchored :
    (∀ rest pre post, findSplit ddd rest = some (pre, post) →
      (validatorParts (ddd ++ rest)).getD 1 [] = pre) ∧
    (∀ rest, pyStartsWith ddd (ddd ++ rest) = true) ∧
    validate_skill yamlTable wInline (pp ["s"]) = .ok true ∧
    validate_skill yamlTable wMidDash (pp ["s"]) = .ok false := by
  have hstarts : ∀ rest : Str, pyStartsWith ddd (ddd ++ rest) = true := by
    intro rest
    simp [pyStartsWith]
  refine ⟨?_, hstarts, rfl, rfl⟩
  intro rest pre post h
  have h0 : findSplit ddd (ddd ++ rest) = some ([], rest) := rfl
  have h2 : pySplit ddd 2 (ddd ++ rest) = [] :: pySplit ddd 1 rest :=
    pySplit_succ ddd 1 _ _ _ h0
  have h3 : pySplit ddd 1 rest = pre :: pySplit ddd 0 post :=
    pySplit_succ ddd 0 _ _ _ h
  show (pySplit ddd 2 (ddd ++ rest)).getD 1 [] = pre
  rw [h2, h3]
  rfl

/-- Witness for C10: the block of `---abc---def` is `abc`, cut at the next
`---` regardless of line structure. -/
theorem claim_C10_witness :
    findSplit ddd (("abc---def").data) = some ((("abc").data), (("def").data)) ∧
    (validatorParts (ddd ++ ("abc---def").data)).getD 1 [] = ("abc").data :=
  ⟨rfl, claim_C10_not_line_anchored.1 (("abc---def").data) (("abc").data)
    (("def").data) rfl⟩

end PackageSkill
